import Mathlib

/-!
# LyricalSync: verification of the timestamp synchronization and editing model

A shallow embedding of the core of the LyricalSync editor: the Time Codec
(`formatLrcTime` / `parseLrcTime`), the Line Store operations, the
Active-Line Resolver, the Document Serializer and the Sync Controller's
mapping/fallback paths, translated from the TypeScript source.

Conventions of the embedding:
* JavaScript strings are modelled as `List Char`.
* JavaScript numbers are modelled as exact rationals `ℚ` (the source uses
  them as real quantities of seconds); `Math.floor` is `Int.floor` and the
  `%` operator is the remainder with the sign of the dividend (`jsRem`).
* The JavaScript built-ins `parseInt(s, 10)` / `parseFloat(s)` are modelled
  on sign-and-digit inputs (no leading whitespace, no exponent, as produced
  and consumed by this program): an optional sign followed by the longest
  digit (and for `parseFloat` optional fraction) run; `none` models `NaN`.
-/

namespace LyricalSync

/-! ## Decimal digits and the JavaScript numeric string built-ins -/

/-- The character of a decimal digit (`0 ≤ d ≤ 9`). -/
def digitChar (d : ℕ) : Char := Char.ofNat (48 + d)

/-- Fuel-driven decimal digit expansion, most significant first.
The fuel makes the recursion structural; `natDigits` supplies enough. -/
def natDigitsAux : ℕ → ℕ → List ℕ
  | 0, _ => []
  | fuel + 1, n => if n < 10 then [n] else natDigitsAux fuel (n / 10) ++ [n % 10]

/-- The decimal digits of `n`, most significant first (`[0]` for zero). -/
def natDigits (n : ℕ) : List ℕ := natDigitsAux (n + 1) n

/-- `Number.prototype.toString` (base 10) on a natural number. -/
def natToString (n : ℕ) : List Char := (natDigits n).map digitChar

/-- `Number.prototype.toString` (base 10) on an integral value. -/
def intToString (i : ℤ) : List Char :=
  if i < 0 then '-' :: natToString i.natAbs else natToString i.toNat

/-- `String.prototype.padStart(2, '0')`. -/
def padStart2 (l : List Char) : List Char := List.replicate (2 - l.length) '0' ++ l

/-- Whether a character is a decimal digit. -/
def isDigitChar (c : Char) : Bool := decide ('0' ≤ c) && decide (c ≤ '9')

/-- The numeric value of a decimal digit character. -/
def digitVal (c : Char) : ℕ := c.toNat - 48

/-- The longest run of digit values at the front of the list, with the rest. -/
def takeDigits : List Char → List ℕ × List Char
  | [] => ([], [])
  | c :: cs =>
    if isDigitChar c then
      let p := takeDigits cs
      (digitVal c :: p.1, p.2)
    else ([], c :: cs)

/-- The natural number denoted by a list of decimal digit values. -/
def digitsToNat (ds : List ℕ) : ℕ := ds.foldl (fun a d => 10 * a + d) 0

/-- Model of the ECMAScript built-in `parseInt(s, 10)` on sign-and-digit
inputs (no whitespace skipping, as used by `parseLrcTime`): an optional
sign, then the longest digit run; `none` models `NaN` (no digits). -/
def parseIntJS : List Char → Option ℤ
  | [] => none
  | c :: rest =>
    if c = '-' then
      let p := takeDigits rest
      if p.1 = [] then none else some (-(digitsToNat p.1 : ℤ))
    else if c = '+' then
      let p := takeDigits rest
      if p.1 = [] then none else some ((digitsToNat p.1 : ℤ))
    else
      let p := takeDigits (c :: rest)
      if p.1 = [] then none else some ((digitsToNat p.1 : ℤ))

/-- The unsigned part of `parseFloat`: digits, optionally `.` and more
digits; `none` when no digit appears at all. -/
def parseFloatMag (l : List Char) : Option ℚ :=
  let p := takeDigits l
  match p.2 with
  | '.' :: r2 =>
    let q := takeDigits r2
    if p.1 = [] ∧ q.1 = [] then none
    else some ((digitsToNat p.1 : ℚ) + (digitsToNat q.1 : ℚ) / 10 ^ q.1.length)
  | _ => if p.1 = [] then none else some ((digitsToNat p.1 : ℚ))

/-- Model of the ECMAScript built-in `parseFloat(s)` on sign-and-digit
inputs (no whitespace skipping, no exponent, as used by `parseLrcTime`):
`none` models `NaN`. -/
def parseFloatJS : List Char → Option ℚ
  | [] => none
  | c :: rest =>
    if c = '-' then (parseFloatMag rest).map (fun q => -q)
    else if c = '+' then parseFloatMag rest
    else parseFloatMag (c :: rest)

/-! ## JavaScript arithmetic on rationals -/

/-- Truncation toward zero, as JavaScript `%` uses for its quotient. -/
def jsTrunc (q : ℚ) : ℤ := if 0 ≤ q then ⌊q⌋ else -⌊-q⌋

/-- The JavaScript `%` operator on numbers: remainder with the sign of the
dividend, `a - b * trunc(a / b)`. -/
def jsRem (a b : ℚ) : ℚ := a - b * (jsTrunc (a / b) : ℚ)

/-! ## Time Codec (`src/unnamed/part_001`: `formatLrcTime`, `parseLrcTime`) -/

/-- `formatLrcTime` from the source: format seconds to `[mm:ss.xx]`, each
field computed by flooring and zero-padded to at least two characters. -/
def formatLrcTime (seconds : ℚ) : List Char :=
  let m : ℤ := ⌊seconds / 60⌋
  let s : ℤ := ⌊jsRem seconds 60⌋
  let ms : ℤ := ⌊jsRem seconds 1 * 100⌋
  '[' :: (padStart2 (intToString m) ++ ':' :: (padStart2 (intToString s) ++
    '.' :: (padStart2 (intToString ms) ++ [']'])))

/-- `splitOn(sep)` on a character list, the model of `String.prototype.split`
with a single-character separator. -/
def splitOnChar (sep : Char) : List Char → List (List Char)
  | [] => [[]]
  | c :: cs =>
    match splitOnChar sep cs with
    | [] => [[]]
    | r :: rs => if c = sep then [] :: r :: rs else (c :: r) :: rs

/-- `parseLrcTime` from the source: strip all square brackets, split on `:`;
unless the split yields exactly two parts whose halves parse as numbers,
return `0`; otherwise return `minutes * 60 + seconds`. -/
def parseLrcTime (timeStr : List Char) : ℚ :=
  let cleanStr := timeStr.filter (fun c => !(c = '[' || c = ']'))
  match splitOnChar ':' cleanStr with
  | [p0, p1] =>
    match parseIntJS p0, parseFloatJS p1 with
    | some minutes, some seconds => (minutes : ℚ) * 60 + seconds
    | _, _ => 0
  | _ => 0

/-! ## Data model (`src/types.ts`) -/

/-- `LyricLine` from `types.ts`. The optional field `needsReview?: boolean`
is modelled as `Option Bool`, `none` meaning the field is absent. -/
structure LyricLine where
  id : List Char
  timestamp : ℚ
  text : List Char
  needsReview : Option Bool := none
deriving DecidableEq

/-- `MetaData` from `types.ts`. -/
structure MetaData where
  title : List Char
  artist : List Char
  album : List Char
  «by» : List Char
deriving DecidableEq

/-- `AppStatus` from `types.ts`. -/
inductive AppStatus where
  | IDLE
  | PROCESSING
  | EDITING
  | ERROR
deriving DecidableEq

/-! ## Line Store operations (`src/App.tsx`, `src/unnamed/part_002`) -/

/-- `Partial<LyricLine>`: each field optionally present. -/
structure LyricLineUpdate where
  id : Option (List Char) := none
  timestamp : Option ℚ := none
  text : Option (List Char) := none
  needsReview : Option (Option Bool) := none

/-- The object spread `\x7b ...line, ...updates \x7d`: fields present in
`updates` override the line's fields. -/
def applyUpdates (updates : LyricLineUpdate) (line : LyricLine) : LyricLine :=
  { id := updates.id.getD line.id
    timestamp := updates.timestamp.getD line.timestamp
    text := updates.text.getD line.text
    needsReview := updates.needsReview.getD line.needsReview }

/-- `handleUpdateLine`: merge the fields into the line matching the id. -/
def handleUpdateLine (id : List Char) (updates : LyricLineUpdate)
    (lines : List LyricLine) : List LyricLine :=
  lines.map (fun line => if line.id = id then applyUpdates updates line else line)

/-- `handleDeleteLine`: after the user confirms, filter the line out;
without confirmation the store is untouched. -/
def handleDeleteLine (confirmed : Bool) (id : List Char)
    (lines : List LyricLine) : List LyricLine :=
  if confirmed then lines.filter (fun line => !(line.id = id)) else lines

/-- `handleInsertAfter`: reads `lines[index]`; `none` models an
out-of-range `index` (where the source would read `undefined`). The new
line's time is the current playback position when that is strictly past the
previous line's timestamp, otherwise that timestamp plus two seconds; it is
spliced in immediately after position `index`. -/
def handleInsertAfter (currentTime : ℚ) (lines : List LyricLine) (index : ℕ)
    (newId : List Char) : Option (List LyricLine) :=
  match lines[index]? with
  | none => none
  | some prevLine =>
    let newTime := if currentTime > prevLine.timestamp then currentTime
      else prevLine.timestamp + 2
    some (lines.take (index + 1) ++
      { id := newId, timestamp := newTime, text := [] } :: lines.drop (index + 1))

/-- `handleSync`: set the line's timestamp to the playback position and
clear `needsReview` (the update is `\x7b timestamp: time, needsReview: false \x7d`). -/
def handleSync (time : ℚ) (id : List Char) (lines : List LyricLine) : List LyricLine :=
  handleUpdateLine id { timestamp := some time, needsReview := some (some false) } lines

/-- The "add a line at the end" button in `App.tsx`:
`setLines([...lines, \x7b id, timestamp: currentTime, text: '' \x7d])`. -/
def appendLine (currentTime : ℚ) (newId : List Char)
    (lines : List LyricLine) : List LyricLine :=
  lines ++ [{ id := newId, timestamp := currentTime, text := [] }]

/-- `adjustTime` from `EditorRow` (`src/unnamed/part_002`): nudge the
line's timestamp by `delta`, clamped at zero. -/
def adjustTime (delta : ℚ) (line : LyricLine) (lines : List LyricLine) : List LyricLine :=
  handleUpdateLine line.id { timestamp := some (max 0 (line.timestamp + delta)) } lines

/-- A Document: the ordered lines plus the metadata record (held in two
separate pieces of state in `App.tsx`). -/
structure Document where
  lines : List LyricLine
  meta : MetaData
deriving DecidableEq

/-- `handleDeleteLine` at the document level: `setLines` touches only the
line state, the metadata state is untouched. -/
def docDeleteLine (confirmed : Bool) (id : List Char) (doc : Document) : Document :=
  { doc with lines := handleDeleteLine confirmed id doc.lines }

/-- `handleUpdateLine` at the document level: `setLines` touches only the
line state, the metadata state is untouched. -/
def docUpdateLine (id : List Char) (updates : LyricLineUpdate) (doc : Document) : Document :=
  { doc with lines := handleUpdateLine id updates doc.lines }

/-! ## Active-Line Resolver (`src/App.tsx`: `activeLineIndex`) -/

/-- The loop of `activeLineIndex`: walk the lines in display order carrying
the position `i` and the last qualifying index; stop at the first line whose
timestamp exceeds the playback position. -/
def activeLineIndexGo (currentTime : ℚ) : List LyricLine → ℤ → ℤ → ℤ
  | [], _, index => index
  | line :: rest, i, index =>
    if currentTime ≥ line.timestamp then activeLineIndexGo currentTime rest (i + 1) i
    else index

/-- `activeLineIndex`: the index of the last line that has started at the
given playback position, `-1` when none has. -/
def activeLineIndex (currentTime : ℚ) (lines : List LyricLine) : ℤ :=
  activeLineIndexGo currentTime lines 0 (-1)

/-! ## Document Serializer (`src/App.tsx`: `generateLrcOutput`) -/

/-- Ascending insertion by timestamp placing the new element before the
first existing element that is not strictly smaller; folding it over the
list realizes the stable sort of
`[...lines].sort((a, b) => a.timestamp - b.timestamp)` (ECMAScript
`Array.prototype.sort` is stable, and the stable ascending permutation is
unique). -/
def insertByTime (l : LyricLine) : List LyricLine → List LyricLine
  | [] => [l]
  | x :: xs => if x.timestamp < l.timestamp then x :: insertByTime l xs else l :: x :: xs

/-- The timestamp-ascending stable sort used before export. -/
def sortByTime (lines : List LyricLine) : List LyricLine :=
  lines.foldr insertByTime []

/-- The metadata header of `generateLrcOutput`: four `[tag:value]` lines in
fixed order (`ti`, `ar`, `al`, `by`), each followed by a newline. -/
def metaHeader (meta : MetaData) : List Char :=
  "[ti:".data ++ meta.title ++ "]\n[ar:".data ++ meta.artist ++ "]\n[al:".data ++
    meta.album ++ "]\n[by:".data ++ meta.«by» ++ "]\n".data

/-- `generateLrcOutput`: the header, then the timestamp-sorted lines, each
rendered `formatLrcTime(timestamp) + text` with no separator, joined by
newlines. -/
def generateLrcOutput (meta : MetaData) (lines : List LyricLine) : List Char :=
  let sortedLines := sortByTime lines
  metaHeader meta ++
    List.intercalate ['\n']
      (sortedLines.map (fun line => formatLrcTime line.timestamp ++ line.text))

/-! ## Sync Controller (`src/services/geminiService.ts`, `src/App.tsx`) -/

/-- One entry of the AI collaborator's decoded response. The response schema
marks no field required and the mapping code inspects nothing, so
`confidence` may be absent (`none` = the JSON field is missing); such an
entry does not throw — it is mapped silently. `time` is kept as a string
because an entry whose `time` is absent or not a string makes
`parseLrcTime` throw at once (`.replace` on `undefined`), landing the whole
call in the `catch`; and `text` is kept as a string because `types.ts`
types `text: string` and this embedding's `LyricLine.text` keeps that type
(an entry with an absent `text` is likewise silently mapped in the source —
its line's text becomes `undefined` — which lies outside the string model). -/
structure AiLine where
  time : List Char
  text : List Char
  confidence : Option ℚ

/-- The JavaScript comparison `line.confidence < 0.7` when the field may be
absent: any `<` comparison against `undefined` is `false`. -/
def jsLtConfidence : Option ℚ → ℚ → Bool
  | none, _ => false
  | some c, b => decide (c < b)

/-- The per-entry mapping in `analyzeLyricsWithAudio`: fresh id,
`parseLrcTime` applied to the time string (uninspected and unclamped), the
text verbatim, `needsReview` exactly when `confidence < 0.7` — which is
`false` when the confidence field is absent. -/
def mapAiLine (newId : List Char) (line : AiLine) : LyricLine :=
  { id := newId, timestamp := parseLrcTime line.time, text := line.text,
    needsReview := some (jsLtConfidence line.confidence (7 / 10)) }

/-- `parsed.lines.map(...)`, with the successive `generateId()` results
modelled by an id supply indexed by position. -/
def mapAiLines (gen : ℕ → List Char) (ls : List AiLine) : List LyricLine :=
  ls.mapIdx (fun i line => mapAiLine (gen i) line)

/-- `String.prototype.trim`'s whitespace test, on the ASCII whitespace
characters that can occur in this program's lyric text. -/
def isWsChar (c : Char) : Bool :=
  c = ' ' || c = '\t' || c = '\n' || c = '\r' || c = '\x0b' || c = '\x0c'

/-- `String.prototype.trim`: drop leading and trailing whitespace. -/
def trimChars (l : List Char) : List Char :=
  ((l.dropWhile isWsChar).reverse.dropWhile isWsChar).reverse

/-- The manual-fallback construction in `handleAutoProcess` (`src/App.tsx`):
split the raw text on newlines, discard lines that are blank after
trimming, and make one line each with timestamp 0 and `needsReview = true`. -/
def fallbackLines (gen : ℕ → List Char) (text : List Char) : List LyricLine :=
  ((splitOnChar '\n' text).filter (fun l => !(trimChars l = []))).mapIdx
    (fun i l => { id := gen i, timestamp := 0, text := trimChars l, needsReview := some true })

/-- The catch-branch fallback inside `analyzeLyricsWithAudio`
(`src/services/geminiService.ts`), the same construction as the manual
fallback in `App.tsx`. -/
def serviceFallbackLines (gen : ℕ → List Char) (rawLyrics : List Char) : List LyricLine :=
  ((splitOnChar '\n' rawLyrics).filter (fun l => !(trimChars l = []))).mapIdx
    (fun i l => { id := gen i, timestamp := 0, text := trimChars l, needsReview := some true })

/-- `analyzeLyricsWithAudio`: `outcome` is the result of the
network-decode-and-map steps inside the `try`. The throwing steps are a
transport error, a missing response text, a `JSON.parse` failure, a missing
or non-array `lines` field (the `.map` call throws), and an entry whose
`time` is absent or not a string (`parseLrcTime`'s `.replace` throws inside
the map callback) — `Except.error` covers exactly these. An entry missing
only `text` or `confidence` does NOT throw: it reaches `Except.ok` as an
`AiLine` and is mapped silently (absent confidence gives
`needsReview = false`). On success the mapped entries are returned; on any
throw the `catch` logs to the console and returns the fallback construction
as a normal result — it does not re-throw. -/
def analyzeLyricsWithAudio (rawLyrics : List Char) (gen : ℕ → List Char)
    (outcome : Except (List Char) (List AiLine)) : List LyricLine :=
  match outcome with
  | Except.ok ls => mapAiLines gen ls
  | Except.error _ => serviceFallbackLines gen rawLyrics

/-- The observable result of `handleAutoProcess`: the installed lines, the
status transitioned to, and whether the user-visible `alert` ran. -/
structure ProcessResult where
  lines : List LyricLine
  status : AppStatus
  alerted : Bool
deriving DecidableEq

/-- `handleAutoProcess` (`src/App.tsx`), the deferred work once both files
are present and the 25 MB pre-flight size check has passed. `encodeFailed`
models a throw in `fileToBase64` or the first `textFile.text()` — the only
steps of the `try` block that can throw, because `analyzeLyricsWithAudio`
catches internally and always returns; on that path the `try` installs the
AI call's result and transitions to `EDITING` without alerting. The `catch`
branch first alerts, then re-reads the lyrics file: if the re-read succeeds
it installs the manual fallback and transitions to `EDITING`; if the
re-read also fails (`fallbackReadFailed`, the `.catch` at the end of the
branch) it only sets the status back to `IDLE` — `setLines` never runs, so
the lines stay as they were (`linesBefore`). -/
def handleAutoProcess (textContent : List Char) (encodeFailed fallbackReadFailed : Bool)
    (outcome : Except (List Char) (List AiLine)) (gen : ℕ → List Char)
    (linesBefore : List LyricLine) : ProcessResult :=
  if encodeFailed then
    if fallbackReadFailed then
      { lines := linesBefore, status := AppStatus.IDLE, alerted := true }
    else
      { lines := fallbackLines gen textContent, status := AppStatus.EDITING, alerted := true }
  else
    { lines := analyzeLyricsWithAudio textContent gen outcome,
      status := AppStatus.EDITING, alerted := false }

/-! ## Lemmas: decimal digits -/

theorem natDigitsAux_irrel : ∀ f1 n f2, n < f1 → n < f2 →
    natDigitsAux f1 n = natDigitsAux f2 n := by
  intro f1
  induction f1 with
  | zero => intro n f2 h1 _; omega
  | succ f ih =>
    intro n f2 h1 h2
    cases f2 with
    | zero => omega
    | succ g =>
      simp only [natDigitsAux]
      by_cases h10 : n < 10
      · simp [h10]
      · have hn : 0 < n := by omega
        have hd : n / 10 < n := Nat.div_lt_self hn (by norm_num)
        simp only [h10, if_false]
        rw [ih (n / 10) g (by omega) (by omega)]

theorem natDigits_unfold (n : ℕ) :
    natDigits n = if n < 10 then [n] else natDigits (n / 10) ++ [n % 10] := by
  have hrw : natDigits n = if n < 10 then [n] else natDigitsAux n (n / 10) ++ [n % 10] := rfl
  by_cases h10 : n < 10
  · rw [hrw, if_pos h10, if_pos h10]
  · have hn : 0 < n := by omega
    have hd : n / 10 < n := Nat.div_lt_self hn (by norm_num)
    rw [hrw, if_neg h10, if_neg h10,
      natDigitsAux_irrel n (n / 10) (n / 10 + 1) (by omega) (by omega)]
    rfl

theorem natDigits_ne_nil (n : ℕ) : natDigits n ≠ [] := by
  rw [natDigits_unfold]
  by_cases h10 : n < 10 <;> simp [h10]

theorem natDigits_lt (n : ℕ) : ∀ d ∈ natDigits n, d < 10 := by
  induction n using Nat.strong_induction_on with
  | _ n ih =>
    rw [natDigits_unfold]
    by_cases h10 : n < 10
    · simp [h10]
    · have hn : 0 < n := by omega
      have hd : n / 10 < n := Nat.div_lt_self hn (by norm_num)
      simp only [h10, if_false, List.mem_append, List.mem_singleton]
      rintro d (hmem | rfl)
      · exact ih (n / 10) hd d hmem
      · exact Nat.mod_lt n (by norm_num)

theorem digitsToNat_append_singleton (xs : List ℕ) (d : ℕ) :
    digitsToNat (xs ++ [d]) = 10 * digitsToNat xs + d := by
  simp [digitsToNat, List.foldl_append]

theorem digitsToNat_natDigits (n : ℕ) : digitsToNat (natDigits n) = n := by
  induction n using Nat.strong_induction_on with
  | _ n ih =>
    rw [natDigits_unfold]
    by_cases h10 : n < 10
    · simp [h10, digitsToNat]
    · have hn : 0 < n := by omega
      have hd : n / 10 < n := Nat.div_lt_self hn (by norm_num)
      simp only [h10, if_false]
      rw [digitsToNat_append_singleton, ih (n / 10) hd]
      omega

theorem digitsToNat_replicate_zero (k : ℕ) (ds : List ℕ) :
    digitsToNat (List.replicate k 0 ++ ds) = digitsToNat ds := by
  induction k with
  | zero => simp
  | succ m ih => simpa [digitsToNat, List.replicate_succ] using ih

/-- The digit values behind `padStart2 (natToString n)`. -/
def paddedDigits (n : ℕ) : List ℕ :=
  List.replicate (2 - (natDigits n).length) 0 ++ natDigits n

theorem padStart2_natToString (n : ℕ) :
    padStart2 (natToString n) = (paddedDigits n).map digitChar := by
  have h0 : digitChar 0 = '0' := by decide
  simp [padStart2, natToString, paddedDigits, List.map_append, List.map_replicate, h0]

theorem paddedDigits_lt (n : ℕ) : ∀ d ∈ paddedDigits n, d < 10 := by
  intro d hd
  rcases List.mem_append.mp hd with h | h
  · have := List.eq_of_mem_replicate h
    omega
  · exact natDigits_lt n d h

theorem paddedDigits_ne_nil (n : ℕ) : paddedDigits n ≠ [] := by
  simp [paddedDigits, natDigits_ne_nil n]

theorem digitsToNat_paddedDigits (n : ℕ) : digitsToNat (paddedDigits n) = n := by
  rw [paddedDigits, digitsToNat_replicate_zero, digitsToNat_natDigits]

theorem natDigits_length_of_lt_100 (n : ℕ) (h : n < 100) :
    (natDigits n).length ≤ 2 := by
  rw [natDigits_unfold]
  by_cases h10 : n < 10
  · simp [h10]
  · have : n / 10 < 10 := by omega
    rw [if_neg h10, natDigits_unfold, if_pos this]
    simp

theorem paddedDigits_length_two (n : ℕ) (h : n < 100) :
    (paddedDigits n).length = 2 := by
  have h1 : (natDigits n).length ≤ 2 := natDigits_length_of_lt_100 n h
  have h2 : natDigits n ≠ [] := natDigits_ne_nil n
  have h3 : 1 ≤ (natDigits n).length := by
    cases hn : natDigits n with
    | nil => exact absurd hn h2
    | cons a l => simp
  simp [paddedDigits]
  omega

/-! ## Lemmas: digit characters -/

theorem digitChar_props (d : ℕ) (h : d < 10) :
    isDigitChar (digitChar d) = true ∧ digitVal (digitChar d) = d ∧
    digitChar d ≠ '[' ∧ digitChar d ≠ ']' ∧ digitChar d ≠ ':' ∧
    digitChar d ≠ '.' ∧ digitChar d ≠ '-' ∧ digitChar d ≠ '+' := by
  interval_cases d <;> exact ⟨by decide, by decide, by decide, by decide,
    by decide, by decide, by decide, by decide⟩

/-! ## Lemmas: scanning digit runs, bracket stripping, splitting -/

theorem takeDigits_nil : takeDigits [] = ([], []) := rfl

theorem takeDigits_map_digitChar (ds : List ℕ) (rest : List Char)
    (h : ∀ d ∈ ds, d < 10) :
    takeDigits (ds.map digitChar ++ rest) =
      (ds ++ (takeDigits rest).1, (takeDigits rest).2) := by
  induction ds with
  | nil => simp
  | cons d tl ih =>
    have hd : d < 10 := h d (List.mem_cons_self d tl)
    have hp := digitChar_props d hd
    simp only [List.map_cons, List.cons_append, takeDigits, hp.1, if_true,
      List.append_eq]
    rw [ih (fun x hx => h x (List.mem_cons_of_mem d hx))]
    simp [hp.2.1]

theorem takeDigits_dot (l : List Char) : takeDigits ('.' :: l) = ([], '.' :: l) := by
  simp [takeDigits, isDigitChar]

theorem filter_brackets_of_digits (ds : List ℕ) (h : ∀ d ∈ ds, d < 10) :
    (ds.map digitChar).filter (fun c => !(c = '[' || c = ']')) = ds.map digitChar := by
  induction ds with
  | nil => simp
  | cons d tl ih =>
    have hd : d < 10 := h d (List.mem_cons_self d tl)
    have hp := digitChar_props d hd
    simp only [List.map_cons, List.filter_cons]
    rw [ih (fun x hx => h x (List.mem_cons_of_mem d hx))]
    simp [hp.2.2.1, hp.2.2.2.1]

theorem mem_map_digitChar_ne_colon (ds : List ℕ) (h : ∀ d ∈ ds, d < 10) :
    ':' ∉ ds.map digitChar := by
  intro hmem
  rcases List.mem_map.mp hmem with ⟨d, hd, hEq⟩
  exact absurd hEq (digitChar_props d (h d hd)).2.2.2.2.1

theorem splitOnChar_not_mem (sep : Char) (l : List Char) (h : sep ∉ l) :
    splitOnChar sep l = [l] := by
  induction l with
  | nil => rfl
  | cons c cs ih =>
    have hc : c ≠ sep := fun hEq => h (hEq ▸ List.mem_cons_self c cs)
    have hcs : sep ∉ cs := fun hmem => h (List.mem_cons_of_mem c hmem)
    simp only [splitOnChar, ih hcs]
    simp [hc]

theorem splitOnChar_ne_nil (sep : Char) (l : List Char) : splitOnChar sep l ≠ [] := by
  cases l with
  | nil => simp [splitOnChar]
  | cons c cs =>
    simp only [splitOnChar]
    cases splitOnChar sep cs with
    | nil => simp
    | cons r rs => by_cases hc : c = sep <;> simp [hc]

theorem splitOnChar_append_sep (sep : Char) (xs ys : List Char) (h : sep ∉ xs) :
    splitOnChar sep (xs ++ sep :: ys) = xs :: splitOnChar sep ys := by
  induction xs with
  | nil =>
    simp only [List.nil_append, splitOnChar]
    cases hs : splitOnChar sep ys with
    | nil => exact absurd hs (splitOnChar_ne_nil sep ys)
    | cons r rs => simp
  | cons x xs ih =>
    have hx : x ≠ sep := fun hEq => h (hEq ▸ List.mem_cons_self x xs)
    have hxs : sep ∉ xs := fun hmem => h (List.mem_cons_of_mem x hmem)
    simp only [List.cons_append, splitOnChar, List.append_eq]
    rw [ih hxs]
    simp [hx]

/-! ## Lemmas: the numeric built-ins on digit strings -/

theorem parseIntJS_digits (ds : List ℕ) (h : ∀ d ∈ ds, d < 10) (hne : ds ≠ []) :
    parseIntJS (ds.map digitChar) = some ((digitsToNat ds : ℤ)) := by
  cases ds with
  | nil => exact absurd rfl hne
  | cons d tl =>
    have hd : d < 10 := h d (List.mem_cons_self d tl)
    have hp := digitChar_props d hd
    have htake : takeDigits ((d :: tl).map digitChar ++ []) =
        ((d :: tl) ++ (takeDigits []).1, (takeDigits []).2) :=
      takeDigits_map_digitChar (d :: tl) [] h
    simp only [List.append_nil, takeDigits_nil] at htake
    have htake2 : takeDigits (digitChar d :: List.map digitChar tl) = (d :: tl, []) := htake
    simp only [List.map_cons, parseIntJS]
    rw [if_neg hp.2.2.2.2.2.2.1, if_neg hp.2.2.2.2.2.2.2, htake2]
    simp

theorem parseFloatMag_digits_dot (S C : List ℕ)
    (hS : ∀ d ∈ S, d < 10) (hC : ∀ d ∈ C, d < 10) (hSne : S ≠ []) :
    parseFloatMag (S.map digitChar ++ '.' :: C.map digitChar) =
      some ((digitsToNat S : ℚ) + (digitsToNat C : ℚ) / 10 ^ C.length) := by
  have h1 : takeDigits (S.map digitChar ++ '.' :: C.map digitChar) =
      (S ++ (takeDigits ('.' :: C.map digitChar)).1,
        (takeDigits ('.' :: C.map digitChar)).2) :=
    takeDigits_map_digitChar S _ hS
  rw [takeDigits_dot] at h1
  have h2 : takeDigits (C.map digitChar ++ []) =
      (C ++ (takeDigits []).1, (takeDigits []).2) :=
    takeDigits_map_digitChar C [] hC
  simp only [List.append_nil, takeDigits_nil] at h2
  simp only [parseFloatMag, h1, List.append_nil]
  rw [h2]
  simp [hSne, List.length_map]

theorem parseFloatJS_digits_dot (S C : List ℕ)
    (hS : ∀ d ∈ S, d < 10) (hC : ∀ d ∈ C, d < 10) (hSne : S ≠ []) :
    parseFloatJS (S.map digitChar ++ '.' :: C.map digitChar) =
      some ((digitsToNat S : ℚ) + (digitsToNat C : ℚ) / 10 ^ C.length) := by
  cases S with
  | nil => exact absurd rfl hSne
  | cons d tl =>
    have hd : d < 10 := hS d (List.mem_cons_self d tl)
    have hp := digitChar_props d hd
    simp only [List.map_cons, List.cons_append, parseFloatJS]
    rw [if_neg hp.2.2.2.2.2.2.1, if_neg hp.2.2.2.2.2.2.2]
    simpa using parseFloatMag_digits_dot (d :: tl) C hS hC hSne

/-! ## Lemmas: parsing a formatted time -/

theorem parseLrcTime_format_shape (m s c : ℕ) :
    parseLrcTime ('[' :: (padStart2 (natToString m) ++ ':' :: (padStart2 (natToString s) ++
      '.' :: (padStart2 (natToString c) ++ [']'])))) =
      (m : ℚ) * 60 + ((s : ℚ) + (c : ℚ) / 10 ^ (paddedDigits c).length) := by
  have hm := paddedDigits_lt m
  have hs := paddedDigits_lt s
  have hc := paddedDigits_lt c
  rw [padStart2_natToString, padStart2_natToString, padStart2_natToString]
  have hfilter :
      List.filter (fun ch => !(ch = '[' || ch = ']'))
        ('[' :: ((paddedDigits m).map digitChar ++ ':' :: ((paddedDigits s).map digitChar ++
          '.' :: ((paddedDigits c).map digitChar ++ [']'])))) =
      (paddedDigits m).map digitChar ++ ':' :: ((paddedDigits s).map digitChar ++
        '.' :: (paddedDigits c).map digitChar) := by
    simp only [List.filter_cons, List.filter_append]
    rw [filter_brackets_of_digits _ hm, filter_brackets_of_digits _ hs,
      filter_brackets_of_digits _ hc]
    simp +decide
  have hcolon2 : ':' ∉ (paddedDigits s).map digitChar ++
      '.' :: (paddedDigits c).map digitChar := by
    intro hmem
    rcases List.mem_append.mp hmem with h1 | h1
    · exact mem_map_digitChar_ne_colon _ hs h1
    · rcases List.mem_cons.mp h1 with h2 | h2
      · exact absurd h2 (by decide)
      · exact mem_map_digitChar_ne_colon _ hc h2
  simp only [parseLrcTime]
  rw [hfilter, splitOnChar_append_sep ':' _ _ (mem_map_digitChar_ne_colon _ hm),
    splitOnChar_not_mem ':' _ hcolon2]
  simp only [parseIntJS_digits _ hm (paddedDigits_ne_nil m),
    parseFloatJS_digits_dot _ _ hs hc (paddedDigits_ne_nil s)]
  rw [digitsToNat_paddedDigits, digitsToNat_paddedDigits, digitsToNat_paddedDigits]
  push_cast
  ring

/-! ## Lemmas: formatting an exact hundredth-of-a-second value -/

theorem floor_natCast_div (a b : ℕ) (hb : 0 < b) :
    ⌊(a : ℚ) / (b : ℚ)⌋ = ((a / b : ℕ) : ℤ) := by
  rw [Int.floor_eq_iff]
  have hbq : (0 : ℚ) < (b : ℚ) := by exact_mod_cast hb
  have hlt : a < (a / b + 1) * b := by
    have hmod : a % b < b := Nat.mod_lt a hb
    have hdm : b * (a / b) + a % b = a := Nat.div_add_mod a b
    calc a = b * (a / b) + a % b := hdm.symm
    _ < b * (a / b) + b := by omega
    _ = (a / b + 1) * b := by ring
  constructor
  · rw [le_div_iff₀ hbq]
    exact_mod_cast Nat.div_mul_le_self a b
  · push_cast
    rw [div_lt_iff₀ hbq]
    exact_mod_cast hlt

theorem intToString_natCast (n : ℕ) : intToString ((n : ℕ) : ℤ) = natToString n := by
  simp [intToString]

theorem sub_div_cast (k b : ℕ) :
    (k : ℚ) / 100 - (b : ℚ) * ((k / (100 * b) : ℕ) : ℚ) = ((k % (100 * b) : ℕ) : ℚ) / 100 := by
  have hid : 100 * b * (k / (100 * b)) + k % (100 * b) = k := Nat.div_add_mod k (100 * b)
  have hq : 100 * (b : ℚ) * ((k / (100 * b) : ℕ) : ℚ) + ((k % (100 * b) : ℕ) : ℚ) = (k : ℚ) := by
    exact_mod_cast hid
  field_simp
  linarith

theorem formatLrcTime_natCast_div_100 (k : ℕ) :
    formatLrcTime ((k : ℚ) / 100) =
      '[' :: (padStart2 (natToString (k / 6000)) ++ ':' :: (padStart2 (natToString (k % 6000 / 100)) ++
        '.' :: (padStart2 (natToString (k % 100)) ++ [']']))) := by
  have h100 : (0 : ℚ) < 100 := by norm_num
  have hx0 : (0 : ℚ) ≤ (k : ℚ) / 100 := by positivity
  have h60eq : (k : ℚ) / 100 / 60 = (k : ℚ) / 6000 := by ring
  have hfloor1 : ⌊(k : ℚ) / 100 / 60⌋ = ((k / 6000 : ℕ) : ℤ) := by
    rw [h60eq, show ((6000 : ℚ)) = ((6000 : ℕ) : ℚ) by norm_num]
    exact floor_natCast_div k 6000 (by norm_num)
  have htrunc1 : jsTrunc ((k : ℚ) / 100 / 60) = ((k / 6000 : ℕ) : ℤ) := by
    rw [jsTrunc, if_pos (by positivity), hfloor1]
  have hrem60 : jsRem ((k : ℚ) / 100) 60 = ((k % 6000 : ℕ) : ℚ) / 100 := by
    rw [jsRem, htrunc1]
    push_cast
    exact_mod_cast sub_div_cast k 60
  have hfloor2 : ⌊jsRem ((k : ℚ) / 100) 60⌋ = ((k % 6000 / 100 : ℕ) : ℤ) := by
    rw [hrem60, show ((100 : ℚ)) = ((100 : ℕ) : ℚ) by norm_num]
    exact floor_natCast_div (k % 6000) 100 (by norm_num)
  have hfloorx : ⌊(k : ℚ) / 100⌋ = ((k / 100 : ℕ) : ℤ) := by
    rw [show ((100 : ℚ)) = ((100 : ℕ) : ℚ) by norm_num]
    exact floor_natCast_div k 100 (by norm_num)
  have htrunc2 : jsTrunc ((k : ℚ) / 100 / 1) = ((k / 100 : ℕ) : ℤ) := by
    rw [div_one, jsTrunc, if_pos hx0, hfloorx]
  have hrem1 : jsRem ((k : ℚ) / 100) 1 = ((k % 100 : ℕ) : ℚ) / 100 := by
    rw [jsRem, htrunc2]
    have h := sub_div_cast k 1
    norm_num at h
    rw [one_mul]
    exact_mod_cast h
  have hfloor3 : ⌊jsRem ((k : ℚ) / 100) 1 * 100⌋ = ((k % 100 : ℕ) : ℤ) := by
    rw [hrem1, div_mul_cancel₀ _ (by norm_num : (100 : ℚ) ≠ 0), Int.floor_natCast]
  simp only [formatLrcTime]
  rw [hfloor1, hfloor2, hfloor3, intToString_natCast, intToString_natCast,
    intToString_natCast]

/-! ## C1 and C10: decimal length facts -/

theorem paddedDigits_length_mod_100 (k : ℕ) : (paddedDigits (k % 100)).length = 2 :=
  paddedDigits_length_two (k % 100) (Nat.mod_lt k (by norm_num))

/-! ## Lemmas: the Active-Line Resolver -/

theorem activeLineIndexGo_eq (t : ℚ) :
    ∀ (ls : List LyricLine) (i : ℤ),
      activeLineIndexGo t ls i (i - 1) =
        i - 1 + ((ls.takeWhile (fun l => decide (l.timestamp ≤ t))).length : ℤ) := by
  intro ls
  induction ls with
  | nil => intro i; simp [activeLineIndexGo]
  | cons line rest ih =>
    intro i
    by_cases hle : line.timestamp ≤ t
    · have hge : t ≥ line.timestamp := hle
      have h1 : activeLineIndexGo t (line :: rest) i (i - 1) =
          activeLineIndexGo t rest (i + 1) i := by
        simp [activeLineIndexGo, hge]
      have h2 : activeLineIndexGo t rest (i + 1) ((i + 1) - 1) =
          (i + 1) - 1 + ((rest.takeWhile (fun l => decide (l.timestamp ≤ t))).length : ℤ) :=
        ih (i + 1)
      simp only [add_sub_cancel_right] at h2
      rw [h1, h2, List.takeWhile_cons, if_pos (by simpa using hle)]
      simp only [List.length_cons]
      push_cast
      ring
    · have hnge : ¬ t ≥ line.timestamp := hle
      rw [List.takeWhile_cons, if_neg (by simpa using hle)]
      simp [activeLineIndexGo, hnge]

/-! ## Lemmas: the stable sort of the Document Serializer -/

theorem insertByTime_perm (l : LyricLine) (xs : List LyricLine) :
    List.Perm (insertByTime l xs) (l :: xs) := by
  induction xs with
  | nil => rfl
  | cons x tl ih =>
    rw [insertByTime]
    by_cases hx : x.timestamp < l.timestamp
    · rw [if_pos hx]
      exact List.Perm.trans (List.Perm.cons x ih) (List.Perm.swap l x tl)
    · rw [if_neg hx]

theorem sortByTime_perm (lines : List LyricLine) :
    List.Perm (sortByTime lines) lines := by
  induction lines with
  | nil => rfl
  | cons a tl ih =>
    exact List.Perm.trans (insertByTime_perm a (sortByTime tl)) (List.Perm.cons a ih)

theorem mem_insertByTime (l x : LyricLine) (xs : List LyricLine) :
    x ∈ insertByTime l xs ↔ x = l ∨ x ∈ xs := by
  rw [(insertByTime_perm l xs).mem_iff]
  simp

theorem insertByTime_sorted (l : LyricLine) (xs : List LyricLine)
    (h : xs.Pairwise (fun a b => a.timestamp ≤ b.timestamp)) :
    (insertByTime l xs).Pairwise (fun a b => a.timestamp ≤ b.timestamp) := by
  induction xs with
  | nil => simp [insertByTime]
  | cons x tl ih =>
    rw [insertByTime]
    rcases List.pairwise_cons.mp h with ⟨hx, htl⟩
    by_cases hlt : x.timestamp < l.timestamp
    · rw [if_pos hlt]
      refine List.pairwise_cons.mpr ⟨?_, ih htl⟩
      intro y hy
      rcases (mem_insertByTime l y tl).mp hy with rfl | hmem
      · exact le_of_lt hlt
      · exact hx y hmem
    · rw [if_neg hlt]
      refine List.pairwise_cons.mpr ⟨?_, h⟩
      intro y hy
      rcases List.mem_cons.mp hy with rfl | hmem
      · exact le_of_not_lt hlt
      · exact le_trans (le_of_not_lt hlt) (hx y hmem)

theorem sortByTime_sorted (lines : List LyricLine) :
    (sortByTime lines).Pairwise (fun a b => a.timestamp ≤ b.timestamp) := by
  induction lines with
  | nil => simp [sortByTime]
  | cons a tl ih => exact insertByTime_sorted a (sortByTime tl) ih

theorem filter_insertByTime (v : ℚ) (l : LyricLine) (xs : List LyricLine) :
    (insertByTime l xs).filter (fun x => decide (x.timestamp = v)) =
      if l.timestamp = v then l :: xs.filter (fun x => decide (x.timestamp = v))
      else xs.filter (fun x => decide (x.timestamp = v)) := by
  induction xs with
  | nil => by_cases hl : l.timestamp = v <;> simp [insertByTime, hl]
  | cons x tl ih =>
    rw [insertByTime]
    by_cases hx : x.timestamp < l.timestamp
    · rw [if_pos hx, List.filter_cons, ih]
      by_cases hl : l.timestamp = v
      · have hxv : ¬ (x.timestamp = v) := by
          intro hEq; rw [hEq] at hx; rw [hl] at hx; exact lt_irrefl v hx
        simp [hl, hxv, List.filter_cons]
      · by_cases hxv : x.timestamp = v <;> simp [hl, hxv, List.filter_cons]
    · rw [if_neg hx, List.filter_cons, List.filter_cons]
      by_cases hl : l.timestamp = v <;> by_cases hxv : x.timestamp = v <;>
        simp [hl, hxv, List.filter_cons]

theorem sortByTime_stable (lines : List LyricLine) (v : ℚ) :
    (sortByTime lines).filter (fun x => decide (x.timestamp = v)) =
      lines.filter (fun x => decide (x.timestamp = v)) := by
  induction lines with
  | nil => rfl
  | cons a tl ih =>
    rw [sortByTime, List.foldr_cons]
    rw [show List.foldr insertByTime [] tl = sortByTime tl from rfl]
    rw [filter_insertByTime, List.filter_cons]
    by_cases ha : a.timestamp = v <;> simp [ha, ih]

/-! ## Lemmas: mutations on an absent id -/

theorem handleUpdateLine_absent (id : List Char) (u : LyricLineUpdate)
    (lines : List LyricLine) (h : ∀ l ∈ lines, l.id ≠ id) :
    handleUpdateLine id u lines = lines := by
  induction lines with
  | nil => rfl
  | cons a tl ih =>
    have ha : a.id ≠ id := h a (List.mem_cons_self a tl)
    have htl := ih (fun l hl => h l (List.mem_cons_of_mem a hl))
    simp only [handleUpdateLine, List.map_cons, if_neg ha]
    simp only [handleUpdateLine] at htl
    rw [htl]

theorem handleDeleteLine_absent (confirmed : Bool) (id : List Char)
    (lines : List LyricLine) (h : ∀ l ∈ lines, l.id ≠ id) :
    handleDeleteLine confirmed id lines = lines := by
  have hfilter : lines.filter (fun line => !(line.id = id)) = lines := by
    rw [List.filter_eq_self]
    intro l hl
    simpa using h l hl
  cases confirmed <;> simp [handleDeleteLine, hfilter]

/-! ## Lemmas: the fallback construction and the AI mapping -/

theorem mapIdx_mem_shape {α β : Type} (f : ℕ → α → β) (l : List α) (y : β)
    (hy : y ∈ l.mapIdx f) : ∃ i x, x ∈ l ∧ y = f i x := by
  rw [List.mapIdx_eq_enum_map] at hy
  rcases List.mem_map.mp hy with ⟨⟨i, x⟩, hmem, rfl⟩
  have hx : l[i]? = some x := List.mem_enum_iff_getElem?.mp hmem
  rcases List.getElem?_eq_some.mp hx with ⟨hi, hEq⟩
  exact ⟨i, x, hEq ▸ List.getElem_mem hi, rfl⟩

theorem fallbackLines_fields (gen : ℕ → List Char) (text : List Char) :
    ∀ l ∈ fallbackLines gen text, l.timestamp = 0 ∧ l.needsReview = some true := by
  intro l hl
  rcases mapIdx_mem_shape _ _ _ hl with ⟨i, x, _, rfl⟩
  exact ⟨rfl, rfl⟩

theorem fallbackLines_length (gen : ℕ → List Char) (text : List Char) :
    (fallbackLines gen text).length =
      ((splitOnChar '\n' text).filter (fun l => !(trimChars l = []))).length := by
  rw [fallbackLines, List.mapIdx_eq_enum_map, List.length_map, List.enum_length]

theorem fallbackLines_texts (gen : ℕ → List Char) (text : List Char) :
    (fallbackLines gen text).map LyricLine.text =
      ((splitOnChar '\n' text).filter (fun l => !(trimChars l = []))).map trimChars := by
  rw [fallbackLines, List.mapIdx_eq_enum_map, List.map_map]
  conv_rhs =>
    rw [← List.enum_map_snd ((splitOnChar '\n' text).filter (fun l => !(trimChars l = []))),
      List.map_map]
  refine List.map_congr_left ?_
  rintro ⟨i, x⟩ _
  rfl

theorem mapAiLines_timestamps (gen : ℕ → List Char) (entries : List AiLine) :
    ∀ l ∈ mapAiLines gen entries, ∃ e ∈ entries, l.timestamp = parseLrcTime e.time := by
  intro l hl
  rcases mapIdx_mem_shape _ _ _ hl with ⟨i, e, he, rfl⟩
  exact ⟨e, he, rfl⟩

/-! ## Lemmas: non-negativity preservation -/

theorem handleUpdateLine_nonneg (id : List Char) (u : LyricLineUpdate)
    (lines : List LyricLine) (h : ∀ l ∈ lines, 0 ≤ l.timestamp)
    (hu : ∀ t, u.timestamp = some t → 0 ≤ t) :
    ∀ l ∈ handleUpdateLine id u lines, 0 ≤ l.timestamp := by
  intro l hl
  rcases List.mem_map.mp hl with ⟨orig, horig, rfl⟩
  by_cases hid : orig.id = id
  · rw [if_pos hid]
    show 0 ≤ u.timestamp.getD orig.timestamp
    cases ht : u.timestamp with
    | none => simpa using h orig horig
    | some t => simpa using hu t ht
  · rw [if_neg hid]
    exact h orig horig

theorem handleInsertAfter_nonneg (currentTime : ℚ) (lines : List LyricLine)
    (index : ℕ) (newId : List Char) (result : List LyricLine)
    (h : ∀ l ∈ lines, 0 ≤ l.timestamp)
    (hres : handleInsertAfter currentTime lines index newId = some result) :
    ∀ l ∈ result, 0 ≤ l.timestamp := by
  intro l hl
  rw [handleInsertAfter] at hres
  cases hidx : lines[index]? with
  | none => rw [hidx] at hres; exact absurd hres (by simp)
  | some prevLine =>
    rw [hidx] at hres
    have hprev : prevLine ∈ lines := by
      rcases List.getElem?_eq_some.mp hidx with ⟨hi, hEq⟩
      exact hEq ▸ List.getElem_mem hi
    have hprev0 : 0 ≤ prevLine.timestamp := h prevLine hprev
    have hres2 := Option.some.inj hres
    rw [← hres2] at hl
    rcases List.mem_append.mp hl with htake | hrest
    · exact h l (List.mem_of_mem_take htake)
    · rcases List.mem_cons.mp hrest with rfl | hdrop
      · show (0 : ℚ) ≤ (if currentTime > prevLine.timestamp then currentTime
          else prevLine.timestamp + 2)
        by_cases hgt : currentTime > prevLine.timestamp
        · rw [if_pos hgt]; linarith
        · rw [if_neg hgt]; linarith
      · exact h l (List.mem_of_mem_drop hdrop)

end LyricalSync

/-- C3: for every document, the rendered export consists of exactly the four
header lines `[ti:title]`, `[ar:artist]`, `[al:album]`, `[by:attribution]`
in that fixed order, each followed by a newline, followed by the body: the
lines stable-sorted ascending by timestamp (a permutation that is sorted and
preserves the relative order of equal timestamps), each emitted as
`formatLrcTime(timestamp)` immediately followed by the text, joined by
newlines; in particular display order `[(text "b", t 10), (text "a", t 2)]`
is exported with the `a` line first. -/
theorem C3_export_serializer :
    (∀ (meta : LyricalSync.MetaData) (lines : List LyricalSync.LyricLine),
      LyricalSync.generateLrcOutput meta lines =
        "[ti:".data ++ meta.title ++ "]\n".data ++
          ("[ar:".data ++ meta.artist ++ "]\n".data ++
            ("[al:".data ++ meta.album ++ "]\n".data ++
              ("[by:".data ++ meta.«by» ++ "]\n".data ++
                List.intercalate ['\n'] ((LyricalSync.sortByTime lines).map
                  (fun line => LyricalSync.formatLrcTime line.timestamp ++ line.text)))))) ∧
    (∀ lines : List LyricalSync.LyricLine,
      (LyricalSync.sortByTime lines).Pairwise (fun a b => a.timestamp ≤ b.timestamp)) ∧
    (∀ lines : List LyricalSync.LyricLine,
      List.Perm (LyricalSync.sortByTime lines) lines) ∧
    (∀ (lines : List LyricalSync.LyricLine) (v : ℚ),
      (LyricalSync.sortByTime lines).filter (fun x => decide (x.timestamp = v)) =
        lines.filter (fun x => decide (x.timestamp = v))) ∧
    (LyricalSync.sortByTime
        [{ id := "i1".data, timestamp := 10, text := "b".data },
          { id := "i2".data, timestamp := 2, text := "a".data }] =
      [{ id := "i2".data, timestamp := 2, text := "a".data },
        { id := "i1".data, timestamp := 10, text := "b".data }]) := by
  refine ⟨?_, LyricalSync.sortByTime_sorted, LyricalSync.sortByTime_perm,
    LyricalSync.sortByTime_stable, by decide⟩
  intro meta lines
  simp only [LyricalSync.generateLrcOutput, LyricalSync.metaHeader]
  simp [List.append_assoc]

/-- C2: for every list of lines in display order and playback position `t`,
the active-line index is the index of the last line in a front-to-back scan
whose timestamp is ≤ `t`, the scan stopping at the first line whose
timestamp exceeds `t` — i.e. the length of the `takeWhile` run minus one,
which is `-1` when no line qualifies; in particular, for display-order
timestamps `[0, 10, 20]`: `t = -1 ↦ -1`, `t = 0 ↦ 0`, `t = 9.99 ↦ 0`,
`t = 10 ↦ 1`, `t = 25 ↦ 2`. -/
theorem C2_active_line_resolver :
    (∀ (t : ℚ) (lines : List LyricalSync.LyricLine),
      LyricalSync.activeLineIndex t lines =
        ((lines.takeWhile (fun l => decide (l.timestamp ≤ t))).length : ℤ) - 1) ∧
    (∀ (i1 i2 i3 t1 t2 t3 : List Char),
      LyricalSync.activeLineIndex (-1)
        [{ id := i1, timestamp := 0, text := t1 }, { id := i2, timestamp := 10, text := t2 },
          { id := i3, timestamp := 20, text := t3 }] = -1 ∧
      LyricalSync.activeLineIndex 0
        [{ id := i1, timestamp := 0, text := t1 }, { id := i2, timestamp := 10, text := t2 },
          { id := i3, timestamp := 20, text := t3 }] = 0 ∧
      LyricalSync.activeLineIndex (999 / 100)
        [{ id := i1, timestamp := 0, text := t1 }, { id := i2, timestamp := 10, text := t2 },
          { id := i3, timestamp := 20, text := t3 }] = 0 ∧
      LyricalSync.activeLineIndex 10
        [{ id := i1, timestamp := 0, text := t1 }, { id := i2, timestamp := 10, text := t2 },
          { id := i3, timestamp := 20, text := t3 }] = 1 ∧
      LyricalSync.activeLineIndex 25
        [{ id := i1, timestamp := 0, text := t1 }, { id := i2, timestamp := 10, text := t2 },
          { id := i3, timestamp := 20, text := t3 }] = 2) := by
  constructor
  · intro t lines
    have h := LyricalSync.activeLineIndexGo_eq t lines 0
    simp only [zero_sub] at h
    rw [LyricalSync.activeLineIndex, h]
    ring
  · intro i1 i2 i3 t1 t2 t3
    refine ⟨?_, ?_, ?_, ?_, ?_⟩ <;>
      norm_num [LyricalSync.activeLineIndex, LyricalSync.activeLineIndexGo]

/-- C1: for every non-negative seconds value `x` that is an exact multiple of
one hundredth of a second (`x = k / 100` with `k : ℕ`), parsing the formatted
representation returns `x` exactly: `parseLrcTime (formatLrcTime x) = x`. -/
theorem C1_parse_format_roundtrip (x : ℚ) (k : ℕ) (h : x = (k : ℚ) / 100) :
    LyricalSync.parseLrcTime (LyricalSync.formatLrcTime x) = x := by
  subst h
  rw [LyricalSync.formatLrcTime_natCast_div_100, LyricalSync.parseLrcTime_format_shape,
    LyricalSync.paddedDigits_length_mod_100]
  have hid : 6000 * (k / 6000) + 100 * (k % 6000 / 100) + k % 100 = k := by omega
  have hq : 6000 * ((k / 6000 : ℕ) : ℚ) + 100 * ((k % 6000 / 100 : ℕ) : ℚ) +
      ((k % 100 : ℕ) : ℚ) = (k : ℚ) := by exact_mod_cast hid
  rw [show ((10 : ℚ) ^ 2) = 100 by norm_num]
  field_simp
  linarith

/-- Witness for C1 at the concrete value 125.29 seconds. -/
theorem C1_parse_format_roundtrip_witness :
    LyricalSync.parseLrcTime (LyricalSync.formatLrcTime ((12529 : ℚ) / 100)) =
      (12529 : ℚ) / 100 :=
  C1_parse_format_roundtrip ((12529 : ℚ) / 100) 12529 rfl

/-- C4: for every line list, valid index and current playback position,
`insertAfter(index)` creates a new empty-text line placed immediately after
position `index` in display order, whose timestamp is the current playback
position when that is strictly greater than the timestamp of the line at
`index` and otherwise that timestamp plus 2.0 seconds; under this rule the
new line's timestamp is never less than the timestamp of the line at
`index`. -/
theorem C4_insert_after (currentTime : ℚ) (lines : List LyricalSync.LyricLine)
    (index : ℕ) (newId : List Char) (h : index < lines.length) :
    LyricalSync.handleInsertAfter currentTime lines index newId =
      some (lines.take (index + 1) ++
        { id := newId,
          timestamp := if currentTime > (lines.get ⟨index, h⟩).timestamp then currentTime
            else (lines.get ⟨index, h⟩).timestamp + 2,
          text := [] } :: lines.drop (index + 1)) ∧
    (lines.get ⟨index, h⟩).timestamp ≤
      (if currentTime > (lines.get ⟨index, h⟩).timestamp then currentTime
        else (lines.get ⟨index, h⟩).timestamp + 2) := by
  have hget : lines[index]? = some (lines.get ⟨index, h⟩) := List.getElem?_eq_getElem h
  constructor
  · simp only [LyricalSync.handleInsertAfter, hget]
  · by_cases hgt : currentTime > (lines.get ⟨index, h⟩).timestamp
    · rw [if_pos hgt]; exact le_of_lt hgt
    · rw [if_neg hgt]; linarith

/-- Witness for C4 (spec §8 example): previous line timestamp 5, playback
position 3 — and the instantiated heuristic, which evaluates to 7. -/
theorem C4_insert_after_witness :
    (0 : ℕ) < ([{ id := "p".data, timestamp := 5, text := "v".data }] :
      List LyricalSync.LyricLine).length ∧
    (LyricalSync.handleInsertAfter 3
        [{ id := "p".data, timestamp := 5, text := "v".data }] 0 "n".data =
      some [{ id := "p".data, timestamp := 5, text := "v".data },
        { id := "n".data, timestamp := 7, text := [] }]) :=
  ⟨by decide, by
    have h := C4_insert_after 3 [{ id := "p".data, timestamp := 5, text := "v".data }]
      0 "n".data (by decide)
    have h2 := h.1
    rw [if_neg (by norm_num [List.get])] at h2
    norm_num at h2
    simpa using h2⟩

/-- C7: for every document and every id not present in it, `deleteLine(id)`
(with or without the confirmation) and `updateLine(id, fields)` are no-ops:
the document afterwards is field-for-field identical — same lines, same
order, same metadata. -/
theorem C7_unknown_id_noop (id : List Char) (doc : LyricalSync.Document)
    (h : ∀ l ∈ doc.lines, l.id ≠ id) :
    (∀ confirmed, LyricalSync.docDeleteLine confirmed id doc = doc) ∧
    (∀ updates, LyricalSync.docUpdateLine id updates doc = doc) := by
  constructor
  · intro confirmed
    simp [LyricalSync.docDeleteLine,
      LyricalSync.handleDeleteLine_absent confirmed id doc.lines h]
  · intro updates
    simp [LyricalSync.docUpdateLine,
      LyricalSync.handleUpdateLine_absent id updates doc.lines h]

/-- C8: for every raw lyrics text, the manual-fallback construction splits
the text on newlines, discards lines that are blank after trimming, and
produces exactly one `LyricLine` per remaining line — each with timestamp 0
and `needsReview = true`, carrying the trimmed text; in particular the input
`"line one\nline two\n\nline three"` yields exactly 3 lines. -/
theorem C8_manual_fallback (gen : ℕ → List Char) (text : List Char) :
    (∀ l ∈ LyricalSync.fallbackLines gen text,
      l.timestamp = 0 ∧ l.needsReview = some true) ∧
    (LyricalSync.fallbackLines gen text).length =
      ((LyricalSync.splitOnChar '\n' text).filter
        (fun l => !(LyricalSync.trimChars l = []))).length ∧
    (LyricalSync.fallbackLines gen text).map LyricalSync.LyricLine.text =
      ((LyricalSync.splitOnChar '\n' text).filter
        (fun l => !(LyricalSync.trimChars l = []))).map LyricalSync.trimChars ∧
    (LyricalSync.fallbackLines gen ("line one\nline two\n\nline three".data)).length = 3 := by
  refine ⟨LyricalSync.fallbackLines_fields gen text,
    LyricalSync.fallbackLines_length gen text,
    LyricalSync.fallbackLines_texts gen text, ?_⟩
  rw [LyricalSync.fallbackLines_length]
  decide

/-- C9: for every line list, id and playback position, `syncToPlayback` sets
the matching line's timestamp to the playback position and `needsReview` to
`false` regardless of its prior value, keeps that line's id and text, and
leaves every other line unchanged. -/
theorem C9_sync_to_playback (time : ℚ) (id : List Char)
    (lines : List LyricalSync.LyricLine) :
    LyricalSync.handleSync time id lines = lines.map (fun l =>
      if l.id = id then
        { id := l.id, timestamp := time, text := l.text, needsReview := some false }
      else l) := rfl

/-- C10: `parseLrcTime` imposes no lower bound on its result: on the
well-formed two-part inputs `"-1:30"` and `"[00:-5.0]"` it returns the
negative numbers `-30` and `-5` rather than `0`, and the AI-response mapping
installs the parse result directly as the line's timestamp without clamping,
so a negative timestamp enters the document through the AI path. -/
theorem C10_parse_no_lower_bound :
    LyricalSync.parseLrcTime ("-1:30".data) = -30 ∧
    LyricalSync.parseLrcTime ("-1:30".data) < 0 ∧
    LyricalSync.parseLrcTime ("[00:-5.0]".data) = -5 ∧
    (LyricalSync.mapAiLine ("id0".data)
        { time := "[00:-5.0]".data, text := "x".data, confidence := some (9 / 10) }).timestamp =
      LyricalSync.parseLrcTime ("[00:-5.0]".data) ∧
    LyricalSync.mapAiLines (fun _ => "id0".data)
        [{ time := "[00:-5.0]".data, text := "x".data, confidence := some (9 / 10) }] =
      [{ id := "id0".data, timestamp := -5, text := "x".data, needsReview := some false }] := by
  have h1 : LyricalSync.parseLrcTime ("-1:30".data) = -30 := by
    simp +decide [LyricalSync.parseLrcTime, LyricalSync.splitOnChar, LyricalSync.parseIntJS,
      LyricalSync.parseFloatJS, LyricalSync.parseFloatMag, LyricalSync.takeDigits,
      LyricalSync.isDigitChar, LyricalSync.digitVal, LyricalSync.digitsToNat]
    norm_num
  have h2 : LyricalSync.parseLrcTime ("[00:-5.0]".data) = -5 := by
    simp +decide [LyricalSync.parseLrcTime, LyricalSync.splitOnChar, LyricalSync.parseIntJS,
      LyricalSync.parseFloatJS, LyricalSync.parseFloatMag, LyricalSync.takeDigits,
      LyricalSync.isDigitChar, LyricalSync.digitVal, LyricalSync.digitsToNat]
  refine ⟨h1, by rw [h1]; norm_num, h2, rfl, ?_⟩
  rw [LyricalSync.mapAiLines, List.mapIdx_cons]
  have hrev : LyricalSync.jsLtConfidence (some ((9 : ℚ) / 10)) (7 / 10) = false := by
    rw [LyricalSync.jsLtConfidence, decide_eq_false_iff_not]
    norm_num
  simp only [LyricalSync.mapAiLine, hrev, h2]
  norm_num

/-- Witness for C7: a one-line document whose only id is `"a"`, mutated with
the absent id `"z"`. -/
theorem C7_unknown_id_noop_witness :
    (∀ l ∈ ([{ id := "a".data, timestamp := 0, text := "x".data }] :
        List LyricalSync.LyricLine), l.id ≠ "z".data) ∧
    ((∀ confirmed, LyricalSync.docDeleteLine confirmed ("z".data)
        { lines := [{ id := "a".data, timestamp := 0, text := "x".data }],
          meta := { title := "t".data, artist := "r".data, album := "m".data,
                    «by» := "b".data } } =
        { lines := [{ id := "a".data, timestamp := 0, text := "x".data }],
          meta := { title := "t".data, artist := "r".data, album := "m".data,
                    «by» := "b".data } }) ∧
      (∀ updates, LyricalSync.docUpdateLine ("z".data) updates
        { lines := [{ id := "a".data, timestamp := 0, text := "x".data }],
          meta := { title := "t".data, artist := "r".data, album := "m".data,
                    «by» := "b".data } } =
        { lines := [{ id := "a".data, timestamp := 0, text := "x".data }],
          meta := { title := "t".data, artist := "r".data, album := "m".data,
                    «by» := "b".data } })) :=
  ⟨by decide, C7_unknown_id_noop ("z".data) _ (by decide)⟩

/-- C5 counterexample: `updateLine` applies an arbitrary timestamp field
without clamping, and the AI-response mapping installs a negative
`parseLrcTime` result — both put a negative timestamp on a line, refuting
"no operation can give any line a negative timestamp". -/
theorem C5_counterexample_negative_timestamp :
    LyricalSync.handleUpdateLine ("a".data) { timestamp := some (-1) }
        [{ id := "a".data, timestamp := 0, text := "x".data }] =
      [{ id := "a".data, timestamp := -1, text := "x".data }] ∧
    (LyricalSync.mapAiLine ("b".data)
        { time := "[00:-5.0]".data, text := "x".data, confidence := some (9 / 10) }).timestamp =
      -5 ∧
    ((-1 : ℚ) < 0 ∧ (-5 : ℚ) < 0) := by
  refine ⟨?_, ?_, by norm_num, by norm_num⟩
  · simp +decide [LyricalSync.handleUpdateLine, LyricalSync.applyUpdates]
  · show LyricalSync.parseLrcTime ("[00:-5.0]".data) = -5
    simp +decide [LyricalSync.parseLrcTime, LyricalSync.splitOnChar, LyricalSync.parseIntJS,
      LyricalSync.parseFloatJS, LyricalSync.parseFloatMag, LyricalSync.takeDigits,
      LyricalSync.isDigitChar, LyricalSync.digitVal, LyricalSync.digitsToNat]

/-- C5 as amended: starting from a store whose timestamps are all ≥ 0,
timestamp nudges (which clamp at zero), `insertAfter`, deletion and the
manual fallback preserve non-negativity unconditionally; `appendLine` and
`syncToPlayback` preserve it when the supplied playback position is ≥ 0;
`updateLine` preserves it only when the supplied timestamp field, if
present, is ≥ 0; and the AI-response mapping preserves it only when each
entry's parsed time is ≥ 0 (per the counterexample, the last two are
unclamped). -/
theorem C5_amended_nonneg_preservation (lines : List LyricalSync.LyricLine)
    (h : ∀ l ∈ lines, 0 ≤ l.timestamp) :
    (∀ (delta : ℚ) (line : LyricalSync.LyricLine),
      ∀ l ∈ LyricalSync.adjustTime delta line lines, 0 ≤ l.timestamp) ∧
    (∀ (id : List Char) (u : LyricalSync.LyricLineUpdate),
      (∀ t, u.timestamp = some t → 0 ≤ t) →
      ∀ l ∈ LyricalSync.handleUpdateLine id u lines, 0 ≤ l.timestamp) ∧
    (∀ (ct : ℚ) (index : ℕ) (nid : List Char) (result : List LyricalSync.LyricLine),
      LyricalSync.handleInsertAfter ct lines index nid = some result →
      ∀ l ∈ result, 0 ≤ l.timestamp) ∧
    (∀ (ct : ℚ) (nid : List Char), 0 ≤ ct →
      ∀ l ∈ LyricalSync.appendLine ct nid lines, 0 ≤ l.timestamp) ∧
    (∀ (time : ℚ) (id : List Char), 0 ≤ time →
      ∀ l ∈ LyricalSync.handleSync time id lines, 0 ≤ l.timestamp) ∧
    (∀ (confirmed : Bool) (id : List Char),
      ∀ l ∈ LyricalSync.handleDeleteLine confirmed id lines, 0 ≤ l.timestamp) ∧
    (∀ (gen : ℕ → List Char) (text : List Char),
      ∀ l ∈ LyricalSync.fallbackLines gen text, 0 ≤ l.timestamp) ∧
    (∀ (gen : ℕ → List Char) (entries : List LyricalSync.AiLine),
      (∀ e ∈ entries, 0 ≤ LyricalSync.parseLrcTime e.time) →
      ∀ l ∈ LyricalSync.mapAiLines gen entries, 0 ≤ l.timestamp) := by
  refine ⟨?_, ?_, ?_, ?_, ?_, ?_, ?_, ?_⟩
  · intro delta line
    exact LyricalSync.handleUpdateLine_nonneg _ _ lines h
      (fun t ht => by
        have := Option.some.inj ht
        rw [← this]
        exact le_max_left 0 _)
  · intro id u hu
    exact LyricalSync.handleUpdateLine_nonneg id u lines h hu
  · intro ct index nid result hres
    exact LyricalSync.handleInsertAfter_nonneg ct lines index nid result h hres
  · intro ct nid hct l hl
    rcases List.mem_append.mp hl with hmem | hmem
    · exact h l hmem
    · rcases List.mem_singleton.mp hmem with rfl
      exact hct
  · intro time id htime
    exact LyricalSync.handleUpdateLine_nonneg id _ lines h
      (fun t ht => by
        have := Option.some.inj ht
        rw [← this]
        exact htime)
  · intro confirmed id l hl
    rw [LyricalSync.handleDeleteLine] at hl
    cases confirmed with
    | false => exact h l (by simpa using hl)
    | true =>
      rw [if_pos rfl] at hl
      exact h l (List.mem_of_mem_filter hl)
  · intro gen text l hl
    rw [(LyricalSync.fallbackLines_fields gen text l hl).1]
  · intro gen entries hent l hl
    rcases LyricalSync.mapAiLines_timestamps gen entries l hl with ⟨e, he, hEq⟩
    rw [hEq]
    exact hent e he

/-- Witness for C5's amended statement at the empty store. -/
theorem C5_amended_nonneg_preservation_witness :
    (∀ l ∈ ([] : List LyricalSync.LyricLine), 0 ≤ l.timestamp) ∧
    ((∀ (delta : ℚ) (line : LyricalSync.LyricLine),
      ∀ l ∈ LyricalSync.adjustTime delta line ([] : List LyricalSync.LyricLine),
        0 ≤ l.timestamp) ∧
    (∀ (id : List Char) (u : LyricalSync.LyricLineUpdate),
      (∀ t, u.timestamp = some t → 0 ≤ t) →
      ∀ l ∈ LyricalSync.handleUpdateLine id u ([] : List LyricalSync.LyricLine),
        0 ≤ l.timestamp) ∧
    (∀ (ct : ℚ) (index : ℕ) (nid : List Char) (result : List LyricalSync.LyricLine),
      LyricalSync.handleInsertAfter ct ([] : List LyricalSync.LyricLine) index nid =
        some result → ∀ l ∈ result, 0 ≤ l.timestamp) ∧
    (∀ (ct : ℚ) (nid : List Char), 0 ≤ ct →
      ∀ l ∈ LyricalSync.appendLine ct nid ([] : List LyricalSync.LyricLine),
        0 ≤ l.timestamp) ∧
    (∀ (time : ℚ) (id : List Char), 0 ≤ time →
      ∀ l ∈ LyricalSync.handleSync time id ([] : List LyricalSync.LyricLine),
        0 ≤ l.timestamp) ∧
    (∀ (confirmed : Bool) (id : List Char),
      ∀ l ∈ LyricalSync.handleDeleteLine confirmed id ([] : List LyricalSync.LyricLine),
        0 ≤ l.timestamp) ∧
    (∀ (gen : ℕ → List Char) (text : List Char),
      ∀ l ∈ LyricalSync.fallbackLines gen text, 0 ≤ l.timestamp) ∧
    (∀ (gen : ℕ → List Char) (entries : List LyricalSync.AiLine),
      (∀ e ∈ entries, 0 ≤ LyricalSync.parseLrcTime e.time) →
      ∀ l ∈ LyricalSync.mapAiLines gen entries, 0 ≤ l.timestamp)) :=
  ⟨by decide, C5_amended_nonneg_preservation [] (by decide)⟩

/-- C6 counterexample: with the pre-call steps succeeding and the AI call
failing (a transport error), the controller ends on its success path — no
user-visible error is surfaced (`alerted = false`) — because the service
converts the failure into a normal return of the fallback construction;
and a schema violation need not even reach the failure handling: an entry
missing its confidence field is silently mapped with `needsReview = false`. -/
theorem C6_counterexample_no_alert :
    (LyricalSync.handleAutoProcess ("line one\nline two".data) false false
        (Except.error ("network error".data)) (fun _ => "id0".data) []).alerted = false ∧
    (LyricalSync.handleAutoProcess ("line one\nline two".data) false false
        (Except.error ("network error".data)) (fun _ => "id0".data) []).status =
      LyricalSync.AppStatus.EDITING ∧
    LyricalSync.analyzeLyricsWithAudio ("line one\nline two".data) (fun _ => "id0".data)
        (Except.error ("network error".data)) =
      LyricalSync.serviceFallbackLines (fun _ => "id0".data) ("line one\nline two".data) ∧
    (LyricalSync.mapAiLine ("id0".data)
        { time := "[00:05.00]".data, text := "hello".data,
          confidence := none }).needsReview = some false :=
  ⟨rfl, rfl, rfl, rfl⟩

/-- C6 as amended: a throwing failure of the AI call (transport error,
missing response text, malformed JSON, missing lines array, or an entry
whose time field is unusable) is caught inside the service, which returns
the manual-fallback line construction as a normal result; the controller
then follows its success path to Editing with those lines and surfaces no
user-visible error. An entry merely missing its confidence field is not
treated as a failure at all — it is silently mapped with
`needsReview = false`. The controller's own alert runs only when a pre-call
step (audio encode / text read) throws; it then installs the manual
fallback and transitions to Editing, unless the fallback's own re-read of
the lyrics also fails, in which case the status returns to Idle and no
lines are installed. -/
theorem C6_amended_failure_handling (rawLyrics e : List Char)
    (gen : ℕ → List Char) (outcome : Except (List Char) (List LyricalSync.AiLine))
    (linesBefore : List LyricalSync.LyricLine) :
    LyricalSync.analyzeLyricsWithAudio rawLyrics gen (Except.error e) =
      LyricalSync.serviceFallbackLines gen rawLyrics ∧
    LyricalSync.handleAutoProcess rawLyrics false false (Except.error e) gen linesBefore =
      { lines := LyricalSync.serviceFallbackLines gen rawLyrics,
        status := LyricalSync.AppStatus.EDITING, alerted := false } ∧
    LyricalSync.handleAutoProcess rawLyrics false true (Except.error e) gen linesBefore =
      { lines := LyricalSync.serviceFallbackLines gen rawLyrics,
        status := LyricalSync.AppStatus.EDITING, alerted := false } ∧
    LyricalSync.handleAutoProcess rawLyrics true false outcome gen linesBefore =
      { lines := LyricalSync.fallbackLines gen rawLyrics,
        status := LyricalSync.AppStatus.EDITING, alerted := true } ∧
    LyricalSync.handleAutoProcess rawLyrics true true outcome gen linesBefore =
      { lines := linesBefore, status := LyricalSync.AppStatus.IDLE, alerted := true } ∧
    LyricalSync.serviceFallbackLines gen rawLyrics =
      LyricalSync.fallbackLines gen rawLyrics ∧
    (∀ (nid t x : List Char),
      (LyricalSync.mapAiLine nid
        { time := t, text := x, confidence := none }).needsReview = some false) :=
  ⟨rfl, rfl, rfl, rfl, rfl, rfl, fun _ _ _ => rfl⟩
